import Mathlib

/-!
Verification of the desktop client excerpt: the sidebar width handling
(`src/app/src/ui/sidebar.tsx`) and the git pull progress orchestration
(`src/app/src/lib/git/pull.ts`), as a shallow embedding in Lean.
-/

namespace Desktop

/-! ### Throttled scheduler -/

/-- Modelled from the spec: `ThrottledScheduler` is imported by
`sidebar.tsx` from `./lib/throttled-scheduler`, whose source is not part of
the excerpt.  Per the spec (§4.1), `queue action` registers `action` to run
once a fixed delay `timeout` has elapsed with no further `queue` call
superseding it; each new `queue` cancels any pending unexecuted action and
replaces it.  The state carries the pending (not yet fired) action and the
list of actions that have actually executed, in execution order; the timer
settling at the end of a window is the `fire` transition. -/
structure ThrottledScheduler (α : Type) where
  timeout : Nat
  pending : Option α
  executed : List α
  deriving DecidableEq

/-- `new ThrottledScheduler(timeout)`: no pending action, nothing executed. -/
def ThrottledScheduler.new (α : Type) (timeout : Nat) : ThrottledScheduler α :=
  { timeout := timeout, pending := none, executed := [] }

/-- `queue(action)`: cancels any pending unexecuted action and replaces it. -/
def ThrottledScheduler.queue (s : ThrottledScheduler α) (a : α) :
    ThrottledScheduler α :=
  { s with pending := some a }

/-- The throttle timer settles: the pending action (if any) runs once and is
cleared. -/
def ThrottledScheduler.fire (s : ThrottledScheduler α) : ThrottledScheduler α :=
  match s.pending with
  | some a => { s with pending := none, executed := s.executed ++ [a] }
  | none => s

/-- A burst of `queue` calls inside one throttle window (no timer firing in
between). -/
def ThrottledScheduler.queueAll (s : ThrottledScheduler α) (as : List α) :
    ThrottledScheduler α :=
  as.foldl ThrottledScheduler.queue s

lemma ThrottledScheduler.queueAll_append (s : ThrottledScheduler α)
    (as bs : List α) : s.queueAll (as ++ bs) = (s.queueAll as).queueAll bs := by
  simp [ThrottledScheduler.queueAll, List.foldl_append]

lemma ThrottledScheduler.queueAll_executed (s : ThrottledScheduler α)
    (as : List α) : (s.queueAll as).executed = s.executed := by
  induction as generalizing s with
  | nil => rfl
  | cons a as ih => simpa [ThrottledScheduler.queueAll,
      ThrottledScheduler.queue] using ih (s.queue a)

lemma ThrottledScheduler.queueAll_timeout (s : ThrottledScheduler α)
    (as : List α) : (s.queueAll as).timeout = s.timeout := by
  induction as generalizing s with
  | nil => rfl
  | cons a as ih => simpa [ThrottledScheduler.queueAll,
      ThrottledScheduler.queue] using ih (s.queue a)

/-! ### Sidebar width handling (`sidebar.tsx`) -/

/-- String key used when persisting the sidebar width to localStorage. -/
def sidebarWidthConfigKey : String := "sidebar-width"

/-- The sidebar props after `defaultProps` are applied, so every field is
present.  `defaultProps` in the source is
`{ defaultWidth: 250, minimumWidth: 150, maximumWidth: 350 }`. -/
structure SidebarProps where
  defaultWidth : Int
  minimumWidth : Int
  maximumWidth : Int
  deriving DecidableEq

def Sidebar.defaultProps : SidebarProps :=
  { defaultWidth := 250, minimumWidth := 150, maximumWidth := 350 }

/-- Numeric value of a run of decimal digits. -/
def digitsToNat (cs : List Char) : Nat :=
  cs.foldl (fun n c => n * 10 + (c.toNat - '0'.toNat)) 0

/-- JavaScript `parseInt(str, 10)`: skip leading whitespace, read an
optional sign and then the longest leading run of decimal digits; `none`
stands for the `NaN` result when no digit is found. -/
def jsParseInt (s : String) : Option Int :=
  let t := s.data.dropWhile Char.isWhitespace
  let signRest : Int × List Char :=
    match t with
    | '-' :: rest => (-1, rest)
    | '+' :: rest => (1, rest)
    | _ => (1, t)
  let digits := signRest.2.takeWhile Char.isDigit
  if digits.isEmpty then none
  else some (signRest.1 * digitsToNat digits)

/-- `getPersistedWidth`: `parseInt(localStorage.getItem(key), 10)`.  The
stored value at the well-known key is `storage`; `none` means the key is
absent, in which case `getItem` yields `null`, which `parseInt` coerces to
the string "null" and parses to `NaN`.  The result `none` stands for
`NaN`. -/
def getPersistedWidth (storage : Option String) : Option Int :=
  match storage with
  | none => jsParseInt "null"
  | some s => jsParseInt s

/-- `getCurrentWidth`: `(this.state && this.state.width) ? this.state.width
: this.props.defaultWidth`.  The state width is an `Option Int` where
`none` stands for `undefined` or `NaN` (both falsy); the number `0` is
falsy as well, so it also selects the default width. -/
def getCurrentWidth (stateWidth : Option Int) (props : SidebarProps) : Int :=
  match stateWidth with
  | some w => if w ≠ 0 then w else props.defaultWidth
  | none => props.defaultWidth

/-- The width the constructor puts into state: `getPersistedWidth()`. -/
def initialStateWidth (storage : Option String) : Option Int :=
  getPersistedWidth storage

/-- The outcome of one `handleDragMove` step: the width written to
component state and the width handed to `setPersistedWidth` (which queues
it on the throttled scheduler). -/
structure DragMoveEffect where
  stateWidth : Int
  queuedPersistedWidth : Int
  deriving DecidableEq

/-- `handleDragMove`: `deltaX = e.clientX - this.startX`;
`newWidth = this.startWidth + deltaX`;
`newWidthClamped = Math.max(min, Math.min(max, newWidth))`; the clamped
value goes both to `setState` and to `setPersistedWidth`. -/
def handleDragMove (startWidth startX clientX : Int) (props : SidebarProps) :
    DragMoveEffect :=
  let deltaX := clientX - startX
  let newWidth := startWidth + deltaX
  let newWidthClamped := max props.minimumWidth (min props.maximumWidth newWidth)
  { stateWidth := newWidthClamped, queuedPersistedWidth := newWidthClamped }

/-! ### Progress line parser -/

/-- Split a character list at the first occurrence of the separator
`sep`, returning the part before it and the part after it. -/
def splitFirst (sep : List Char) : List Char → Option (List Char × List Char)
  | [] => none
  | c :: rest =>
    if sep.isPrefixOf (c :: rest) then
      some ([], (c :: rest).drop sep.length)
    else
      match splitFirst sep rest with
      | some (pre, post) => some (c :: pre, post)
      | none => none

/-- Modelled from the spec: the textual shape of the known percentage
format, `"<label>: <percent>% (<value>/<total>)"` as in
`"Counting objects: 50% (50/100)"` (§8).  The concrete
`PullProgressParser` lives in `lib/progress`, which is not part of the
excerpt.  Returns the percent digits' value, the value and the total when
the line has that shape. -/
def percentFields (cs : List Char) : Option (Nat × Nat × Nat) :=
  match splitFirst "% (".data cs with
  | none => none
  | some (head, tail) =>
    match tail.reverse with
    | [] => none
    | last :: bodyRev =>
      if last = ')' then
        match splitFirst "/".data bodyRev.reverse with
        | none => none
        | some (vs, ts) =>
          if (!vs.isEmpty) && vs.all Char.isDigit
              && (!ts.isEmpty) && ts.all Char.isDigit then
            let pctDigits := (head.reverse.takeWhile Char.isDigit).reverse
            let pre := head.take (head.length - pctDigits.length)
            if (!pctDigits.isEmpty) && (": ".data.isSuffixOf pre)
                && pre.length > 2 then
              some (digitsToNat pctDigits, digitsToNat vs, digitsToNat ts)
            else none
          else none
      else none

/-- The structured record for one line of subprocess output (spec §3): an
informational `context` line carrying the raw text, or a measured
`progress` step carrying a completion fraction and a details text. -/
structure ProgressDetails where
  text : String
  deriving DecidableEq

inductive ProgressRecord where
  | context (text : String)
  | progress (percent : ℚ) (details : ProgressDetails)
  deriving DecidableEq

/-- JavaScript field access `progress.percent`: present on a `progress`
record, `undefined` on a `context` record (spec §3: a context line carries
no completion fraction). -/
def ProgressRecord.percent : ProgressRecord → Option ℚ
  | .context _ => none
  | .progress q _ => some q

/-- The description the pull orchestration picks:
`progress.kind === 'progress' ? progress.details.text : progress.text`. -/
def ProgressRecord.descriptionText : ProgressRecord → String
  | .context text => text
  | .progress _ d => d.text

/-- Modelled from the spec: `PullProgressParser.parse` (`lib/progress`,
not part of the excerpt).  Per §4.2 it recognizes the known percentage
format and extracts a description plus a completion fraction in `[0, 1]`
(§3), so the matcher additionally requires `value ≤ total` with a positive
total, as the external tool's output satisfies; every other line falls
through to a `context` record carrying the raw text verbatim, and the
function never fails. -/
def PullProgressParser.parse (line : String) : ProgressRecord :=
  match percentFields line.data with
  | some (_p, v, t) =>
    if v ≤ t ∧ 0 < t then
      ProgressRecord.progress (mkRat v t) { text := line }
    else ProgressRecord.context line
  | none => ProgressRecord.context line

/-- A line matches the known percentage format recognized by the parser. -/
def matchesKnownFormat (line : String) : Bool :=
  match percentFields line.data with
  | some (_p, v, t) => decide (v ≤ t ∧ 0 < t)
  | none => false

/-! ### Pull orchestration (`pull.ts`) -/

/-- The allow-listed context text: only context lines starting with this
survive the filter in `pull.ts`. -/
def allowedContextStart : String := "remote: Counting objects"

/-- The event shape handed to the caller-supplied `progressCallback`
(`IPullProgress`): `{ kind, title, description?, value?, remote }`. -/
structure PullEvent where
  kind : String
  title : String
  description : Option String
  value : Option ℚ
  remote : String
  deriving DecidableEq

/-- The stderr line handler installed by `pull`: parse the line; if the
record is a context record whose text does not start with
`"remote: Counting objects"`, return without emitting; otherwise emit
`{ kind: 'pull', title, description, value: progress.percent, remote }`.
`none` means the callback is not invoked for this line. -/
def handleLine (title remote : String) (line : String) : Option PullEvent :=
  let progress := PullProgressParser.parse line
  match progress with
  | ProgressRecord.context text =>
    if allowedContextStart.data.isPrefixOf text.data then
      some { kind := "pull", title := title,
             description := some progress.descriptionText,
             value := progress.percent, remote := remote }
    else none
  | ProgressRecord.progress _ _ =>
    some { kind := "pull", title := title,
           description := some progress.descriptionText,
           value := progress.percent, remote := remote }

/-- The initial event `{ kind, title, value: 0, remote }` emitted
synchronously before the subprocess is started (no description field). -/
def initialPullEvent (remote : String) : PullEvent :=
  { kind := "pull", title := "Pulling " ++ remote, description := none,
    value := some 0, remote := remote }

/-- The sequence of events `pull` delivers to the callback, in order: with
a callback installed, the initial zero-progress event first, then one
event per surviving stderr line in stream order; with no callback,
nothing. -/
def pullEvents (remote : String) (hasCallback : Bool) (lines : List String) :
    List PullEvent :=
  if hasCallback then
    initialPullEvent remote ::
      lines.filterMap (handleLine ("Pulling " ++ remote) remote)
  else []

/-- Modelled from the spec: the completed git invocation's result shape
(`core.ts`, not part of the excerpt); only the error description consulted
by `pull` is kept, `none` when the invocation reports no error. -/
structure GitResult where
  gitErrorDescription : Option String
  deriving DecidableEq

/-- Modelled from the spec: `GitError` (`core.ts`, not part of the
excerpt) carries the result and the arguments of the failed invocation. -/
structure GitError where
  result : GitResult
  args : List String
  deriving DecidableEq

/-- The argument list `pull` passes to git: `--progress` exactly when a
progress callback was supplied. -/
def pullArgs (remote : String) (hasCallback : Bool) : List String :=
  if hasCallback then ["pull", "--progress", remote] else ["pull", remote]

/-- One complete run of `pull`: the events delivered to the callback, the
argument lists of the git invocations performed (exactly one, no retry),
and the outcome: `pull` throws `GitError(result, args)` when the result
carries an error description, and returns normally otherwise. -/
structure PullRun where
  events : List PullEvent
  gitInvocations : List (List String)
  outcome : Except GitError Unit

def pullRun (remote : String) (hasCallback : Bool) (lines : List String)
    (result : GitResult) : PullRun :=
  { events := pullEvents remote hasCallback lines
    gitInvocations := [pullArgs remote hasCallback]
    outcome :=
      if result.gitErrorDescription.isSome then
        Except.error { result := result, args := pullArgs remote hasCallback }
      else Except.ok () }

/-! ### Helper lemmas -/

lemma ThrottledScheduler.queueAll_concat_pending {α : Type}
    (s : ThrottledScheduler α) (as : List α) (a : α) :
    (s.queueAll (as ++ [a])).pending = some a := by
  rw [ThrottledScheduler.queueAll_append]
  rfl

lemma ThrottledScheduler.fire_of_pending_some {α : Type}
    (s : ThrottledScheduler α) (a : α) (h : s.pending = some a) :
    s.fire = { s with pending := none, executed := s.executed ++ [a] } := by
  unfold ThrottledScheduler.fire
  rw [h]

lemma ThrottledScheduler.fire_of_pending_none {α : Type}
    (s : ThrottledScheduler α) (h : s.pending = none) :
    s.fire = s := by
  unfold ThrottledScheduler.fire
  rw [h]

lemma parse_eq_of_fields (line : String) (p v t : Nat)
    (hm : percentFields line.data = some (p, v, t)) :
    PullProgressParser.parse line =
      if v ≤ t ∧ 0 < t then
        ProgressRecord.progress (mkRat v t) { text := line }
      else ProgressRecord.context line := by
  unfold PullProgressParser.parse
  rw [hm]

lemma parse_eq_of_no_fields (line : String)
    (hm : percentFields line.data = none) :
    PullProgressParser.parse line = ProgressRecord.context line := by
  unfold PullProgressParser.parse
  rw [hm]

lemma matchesKnownFormat_of_fields (line : String) (p v t : Nat)
    (hm : percentFields line.data = some (p, v, t)) :
    matchesKnownFormat line = decide (v ≤ t ∧ 0 < t) := by
  unfold matchesKnownFormat
  rw [hm]

lemma parse_progress_bounds (line : String) (q : ℚ) (d : ProgressDetails)
    (h : PullProgressParser.parse line = ProgressRecord.progress q d) :
    0 ≤ q ∧ q ≤ 1 := by
  rcases hm : percentFields line.data with _ | ⟨p, v, t⟩
  · rw [parse_eq_of_no_fields line hm] at h
    exact absurd h (by simp)
  · rw [parse_eq_of_fields line p v t hm] at h
    by_cases hg : v ≤ t ∧ 0 < t
    · rw [if_pos hg] at h
      injection h with h1 h2
      subst h1
      constructor
      · rw [Rat.mkRat_eq_div]
        positivity
      · rw [Rat.mkRat_eq_div, div_le_one (by exact_mod_cast hg.2)]
        exact_mod_cast hg.1
    · rw [if_neg hg] at h
      exact absurd h (by simp)

lemma handleLine_context (title remote line text : String)
    (hp : PullProgressParser.parse line = ProgressRecord.context text) :
    handleLine title remote line =
      if allowedContextStart.data.isPrefixOf text.data then
        some { kind := "pull", title := title, description := some text,
               value := none, remote := remote }
      else none := by
  unfold handleLine
  rw [hp]
  rfl

lemma handleLine_progress (title remote line : String) (q : ℚ)
    (d : ProgressDetails)
    (hp : PullProgressParser.parse line = ProgressRecord.progress q d) :
    handleLine title remote line =
      some { kind := "pull", title := title, description := some d.text,
             value := some q, remote := remote } := by
  unfold handleLine
  rw [hp]
  rfl

/-! ### Claims -/

/-- C1: for every sequence of `queue` calls within one throttle window,
once the window settles only the action from the last call has executed,
and it executed exactly once; every earlier queued action that differs
from it never runs, and a further settling of the timer runs nothing
more. -/
theorem throttled_last_action_only {α : Type} (D : Nat) (as : List α) (a : α) :
    (((ThrottledScheduler.new α D).queueAll (as ++ [a])).fire).executed = [a] ∧
    (∀ b ∈ as, b ≠ a →
      b ∉ (((ThrottledScheduler.new α D).queueAll (as ++ [a])).fire).executed) ∧
    ((((ThrottledScheduler.new α D).queueAll (as ++ [a])).fire).fire).executed
      = [a] := by
  have hp := ThrottledScheduler.queueAll_concat_pending
    (ThrottledScheduler.new α D) as a
  have hx := ThrottledScheduler.queueAll_executed
    (ThrottledScheduler.new α D) (as ++ [a])
  have hfire := ThrottledScheduler.fire_of_pending_some _ a hp
  have hexec : (((ThrottledScheduler.new α D).queueAll (as ++ [a])).fire).executed
      = [a] := by
    rw [hfire]
    show ((ThrottledScheduler.new α D).queueAll (as ++ [a])).executed ++ [a] = [a]
    rw [hx]
    rfl
  refine ⟨hexec, ?_, ?_⟩
  · intro b _ hb hmem
    rw [hexec] at hmem
    simp at hmem
    exact hb hmem
  · have hnone : (((ThrottledScheduler.new α D).queueAll (as ++ [a])).fire).pending
        = none := by
      rw [hfire]
    rw [ThrottledScheduler.fire_of_pending_none _ hnone, hexec]

theorem throttled_last_action_only_app :
    (((ThrottledScheduler.new ℕ 300).queueAll ([1, 2] ++ [3])).fire).executed
      = [3] ∧
    1 ∉ (((ThrottledScheduler.new ℕ 300).queueAll ([1, 2] ++ [3])).fire).executed :=
  ⟨(throttled_last_action_only 300 [1, 2] 3).1,
   (throttled_last_action_only 300 [1, 2] 3).2.1 1 (by decide) (by decide)⟩

/-- C2: a line parsed to a context record leads to an emission if and only
if its text starts with `"remote: Counting objects"`; a line parsed to a
progress record is always emitted. -/
theorem pull_context_allowlist_filter (title remote line : String) :
    (handleLine title remote line).isSome =
      (match PullProgressParser.parse line with
       | ProgressRecord.context text =>
           allowedContextStart.data.isPrefixOf text.data
       | ProgressRecord.progress _ _ => true) := by
  rcases hp : PullProgressParser.parse line with text | ⟨q, d⟩
  · rw [handleLine_context title remote line text hp]
    by_cases hpre : allowedContextStart.data.isPrefixOf text.data <;>
      simp [hpre]
  · rw [handleLine_progress title remote line q d hp]
    simp

/-- C3: with a progress callback supplied, the first event delivered is the
initial event carrying value 0 and the rest are exactly the events derived
from the stderr lines, in stream order; with no callback, no events are
delivered at all. -/
theorem pull_initial_event_first (remote : String) (lines : List String) :
    (pullEvents remote true lines).head? = some (initialPullEvent remote) ∧
    (initialPullEvent remote).value = some 0 ∧
    (pullEvents remote true lines).tail =
      lines.filterMap (handleLine ("Pulling " ++ remote) remote) ∧
    pullEvents remote false lines = [] :=
  ⟨rfl, rfl, rfl, rfl⟩

/-- C4: `parse` is total: every line yields either a context record whose
text is the input unchanged or a progress record whose details text is the
input unchanged; and every line not matching the known format yields the
context record with the unchanged input text. -/
theorem parse_total_fallback (line : String) :
    (PullProgressParser.parse line = ProgressRecord.context line ∨
      ∃ q d, PullProgressParser.parse line = ProgressRecord.progress q d ∧
        d.text = line) ∧
    (matchesKnownFormat line = false →
      PullProgressParser.parse line = ProgressRecord.context line) := by
  rcases hm : percentFields line.data with _ | ⟨p, v, t⟩
  · exact ⟨Or.inl (parse_eq_of_no_fields line hm),
      fun _ => parse_eq_of_no_fields line hm⟩
  · by_cases hg : v ≤ t ∧ 0 < t
    · refine ⟨Or.inr ⟨mkRat v t, { text := line }, ?_, rfl⟩, ?_⟩
      · rw [parse_eq_of_fields line p v t hm, if_pos hg]
      · intro hfalse
        rw [matchesKnownFormat_of_fields line p v t hm,
          decide_eq_false_iff_not] at hfalse
        exact absurd hg hfalse
    · refine ⟨Or.inl ?_, fun _ => ?_⟩ <;>
        rw [parse_eq_of_fields line p v t hm, if_neg hg]

theorem parse_total_fallback_app :
    matchesKnownFormat "remote: some other informational text" = false ∧
    PullProgressParser.parse "remote: some other informational text" =
      ProgressRecord.context "remote: some other informational text" :=
  ⟨by decide, (parse_total_fallback "remote: some other informational text").2
    (by decide)⟩

/-- C5: every line matching the known percentage format parses to a
progress record whose percent is the stated completion fraction
`value / total`, a rational in `[0, 1]`. -/
theorem parse_percent_format (line : String) (p v t : Nat)
    (hm : percentFields line.data = some (p, v, t))
    (hv : v ≤ t) (ht : 0 < t) :
    PullProgressParser.parse line =
      ProgressRecord.progress (mkRat v t) { text := line } ∧
    mkRat v t = (v : ℚ) / (t : ℚ) ∧
    0 ≤ mkRat v t ∧ mkRat v t ≤ 1 := by
  have hparse : PullProgressParser.parse line =
      ProgressRecord.progress (mkRat v t) { text := line } := by
    rw [parse_eq_of_fields line p v t hm, if_pos ⟨hv, ht⟩]
  refine ⟨hparse, ?_, parse_progress_bounds line _ _ hparse⟩
  rw [Rat.mkRat_eq_div]
  push_cast
  ring

theorem parse_percent_format_app :
    percentFields "Counting objects: 50% (50/100)".data = some (50, 50, 100) ∧
    PullProgressParser.parse "Counting objects: 50% (50/100)" =
      ProgressRecord.progress (mkRat 50 100)
        { text := "Counting objects: 50% (50/100)" } ∧
    mkRat 50 100 = mkRat 1 2 :=
  ⟨rfl,
   (parse_percent_format "Counting objects: 50% (50/100)" 50 50 100 rfl
     (by decide) (by decide)).1,
   by decide⟩

/-- C6: `pull` throws `GitError` exactly when the completed git invocation
reports an error description, returns normally exactly when it does not,
and performs exactly one git invocation (no retry). -/
theorem pull_error_surfacing (remote : String) (cb : Bool)
    (lines : List String) (result : GitResult) :
    ((pullRun remote cb lines result).outcome =
        Except.error { result := result, args := pullArgs remote cb } ↔
      result.gitErrorDescription.isSome) ∧
    ((pullRun remote cb lines result).outcome = Except.ok () ↔
      result.gitErrorDescription = none) ∧
    (pullRun remote cb lines result).gitInvocations = [pullArgs remote cb] := by
  rcases h : result.gitErrorDescription with _ | d <;>
    simp [pullRun, h]

theorem pull_error_surfacing_app :
    (pullRun "origin" true [] { gitErrorDescription := some "fatal" }).outcome
      = Except.error { result := { gitErrorDescription := some "fatal" },
                       args := ["pull", "--progress", "origin"] } ∧
    (pullRun "origin" true [] { gitErrorDescription := none }).outcome
      = Except.ok () :=
  ⟨(pull_error_surfacing "origin" true []
      { gitErrorDescription := some "fatal" }).1.mpr (by decide),
   (pull_error_surfacing "origin" true []
      { gitErrorDescription := none }).2.1.mpr rfl⟩

/-- C7: every delivered event has kind `'pull'`, title `"Pulling <remote>"`
and the remote; any numeric value it carries lies in `[0, 1]`; and it is
either the initial event or derived from some stderr line, with
description the parsed record's text and value the parsed record's
percent. -/
theorem pull_event_shape (remote : String) (cb : Bool) (lines : List String)
    (e : PullEvent) (he : e ∈ pullEvents remote cb lines) :
    e.kind = "pull" ∧ e.title = "Pulling " ++ remote ∧ e.remote = remote ∧
    (∀ q, e.value = some q → 0 ≤ q ∧ q ≤ 1) ∧
    (e = initialPullEvent remote ∨
      ∃ line ∈ lines,
        e.description = some (PullProgressParser.parse line).descriptionText ∧
        e.value = (PullProgressParser.parse line).percent) := by
  cases cb with
  | false => exact absurd he (by simp [pullEvents])
  | true =>
    rw [pullEvents, if_pos rfl, List.mem_cons] at he
    rcases he with he | he
    · subst he
      refine ⟨rfl, rfl, rfl, ?_, Or.inl rfl⟩
      intro q hq
      simp [initialPullEvent] at hq
      subst hq
      exact ⟨le_refl 0, zero_le_one⟩
    · obtain ⟨line, hline, hsome⟩ := List.mem_filterMap.mp he
      rcases hp : PullProgressParser.parse line with text | ⟨q2, d⟩
      · rw [handleLine_context _ _ _ _ hp] at hsome
        by_cases hpre : allowedContextStart.data.isPrefixOf text.data
        · rw [if_pos hpre] at hsome
          obtain he2 := Option.some.inj hsome
          subst he2
          refine ⟨rfl, rfl, rfl, ?_, Or.inr ⟨line, hline, ?_, ?_⟩⟩
          · intro q hq
            simp at hq
          · rw [hp]
            rfl
          · rw [hp]
            rfl
        · rw [if_neg hpre] at hsome
          exact absurd hsome (by simp)
      · rw [handleLine_progress _ _ _ _ _ hp] at hsome
        obtain he2 := Option.some.inj hsome
        subst he2
        refine ⟨rfl, rfl, rfl, ?_, Or.inr ⟨line, hline, ?_, ?_⟩⟩
        · intro q hq
          have hq2 : q2 = q := by simpa using hq
          subst hq2
          exact parse_progress_bounds line q2 d hp
        · rw [hp]
          rfl
        · rw [hp]
          rfl

theorem pull_event_shape_app :
    initialPullEvent "origin" ∈ pullEvents "origin" true [] ∧
    (initialPullEvent "origin").kind = "pull" ∧
    (initialPullEvent "origin").title = "Pulling " ++ "origin" ∧
    (initialPullEvent "origin").remote = "origin" :=
  ⟨by decide,
   (pull_event_shape "origin" true [] (initialPullEvent "origin") (by decide)).1,
   (pull_event_shape "origin" true [] (initialPullEvent "origin") (by decide)).2.1,
   (pull_event_shape "origin" true [] (initialPullEvent "origin")
     (by decide)).2.2.1⟩

/-- C8 counterexample: the persisted entry `"0"` parses to the integer 0,
yet the current width is the default 250, not the persisted 0, because 0
is falsy in `(this.state && this.state.width) ? ... : defaultWidth`. -/
theorem sidebar_persisted_zero_ignored :
    getPersistedWidth (some "0") = some 0 ∧
    getCurrentWidth (initialStateWidth (some "0")) Sidebar.defaultProps = 250 ∧
    (250 : Int) ≠ 0 := by decide

/-- C8 amended: absence of the persisted entry gives the default width; a
persisted value parsing to a nonzero integer is used instead; a persisted
zero (like an unparsable value) falls back to the default width. -/
theorem sidebar_width_default_and_persisted (storage : Option String)
    (props : SidebarProps) :
    (storage = none →
      getCurrentWidth (initialStateWidth storage) props = props.defaultWidth) ∧
    (∀ w : Int, getPersistedWidth storage = some w → w ≠ 0 →
      getCurrentWidth (initialStateWidth storage) props = w) := by
  constructor
  · intro h
    subst h
    rfl
  · intro w hw hw0
    rw [initialStateWidth, hw]
    simp [getCurrentWidth, hw0]

theorem sidebar_width_default_and_persisted_app :
    getPersistedWidth (some "150") = some 150 ∧
    getCurrentWidth (initialStateWidth (some "150")) Sidebar.defaultProps
      = 150 :=
  ⟨by decide,
   (sidebar_width_default_and_persisted (some "150") Sidebar.defaultProps).2
     150 (by decide) (by decide)⟩

/-- C9: every drag step stores and queues for persistence the same clamped
width, which lies in the closed interval `[minimumWidth, maximumWidth]`
whenever that interval is nonempty. -/
theorem handleDragMove_clamped (startWidth startX clientX : Int)
    (props : SidebarProps) (h : props.minimumWidth ≤ props.maximumWidth) :
    props.minimumWidth ≤
      (handleDragMove startWidth startX clientX props).stateWidth ∧
    (handleDragMove startWidth startX clientX props).stateWidth ≤
      props.maximumWidth ∧
    (handleDragMove startWidth startX clientX props).queuedPersistedWidth =
      (handleDragMove startWidth startX clientX props).stateWidth := by
  refine ⟨le_max_left _ _, ?_, rfl⟩
  exact max_le h (min_le_left _ _)

theorem handleDragMove_clamped_app :
    Sidebar.defaultProps.minimumWidth ≤ Sidebar.defaultProps.maximumWidth ∧
    Sidebar.defaultProps.minimumWidth ≤
      (handleDragMove 250 0 500 Sidebar.defaultProps).stateWidth ∧
    (handleDragMove 250 0 500 Sidebar.defaultProps).stateWidth ≤
      Sidebar.defaultProps.maximumWidth :=
  ⟨by decide,
   (handleDragMove_clamped 250 0 500 Sidebar.defaultProps (by decide)).1,
   (handleDragMove_clamped 250 0 500 Sidebar.defaultProps (by decide)).2.1⟩

/-- C10: an event emitted for a context record carries no value (a context
record has no percent) and carries the context text as its description; in
particular this holds for the allow-listed context lines, the only context
lines that are emitted. -/
theorem context_event_value_none (title remote line text : String)
    (hc : PullProgressParser.parse line = ProgressRecord.context text)
    (e : PullEvent) (he : handleLine title remote line = some e) :
    e.value = none ∧ e.description = some text := by
  rw [handleLine_context title remote line text hc] at he
  by_cases hpre : allowedContextStart.data.isPrefixOf text.data
  · rw [if_pos hpre] at he
    obtain h := Option.some.inj he
    subst h
    exact ⟨rfl, rfl⟩
  · rw [if_neg hpre] at he
    exact absurd he (by simp)

theorem context_event_value_none_app :
    PullProgressParser.parse "remote: Counting objects" =
      ProgressRecord.context "remote: Counting objects" ∧
    ({ kind := "pull", title := "Pulling origin",
       description := some "remote: Counting objects", value := none,
       remote := "origin" } : PullEvent).value = none :=
  ⟨rfl,
   (context_event_value_none "Pulling origin" "origin"
     "remote: Counting objects" "remote: Counting objects" rfl
     { kind := "pull", title := "Pulling origin",
       description := some "remote: Counting objects", value := none,
       remote := "origin" } (by decide)).1⟩

end Desktop
